import Mathlib

/-!
Verification of the screening engine of the `stock_data` repository
(`src/screening/`): the condition/combinator pipeline, its leaf conditions,
and the `ScreeningService` orchestration, shallowly embedded in Lean.

Modelling conventions:
* Python `str` stock codes become `String`; numeric columns become `ℚ`
  (the source manipulates floats only through order comparisons and one
  division; no claim depends on float rounding).
* Collaborators (`db_manager`, `fetch_service`, the indicator routine of
  `src/charts/indicators.py`, `datetime` arithmetic) are modelled as data /
  function parameters: a `db_manager` is either a reachable database value
  or a connection error, and `fetch_service` methods return `Except`-values
  where the source implementation can raise.
* A raised Python exception is an `Except.error`; an exception caught by a
  `try/except` block in the source is matched and turned into the source's
  fallback value at exactly the place the source catches it.
* Every `filter` evaluation also produces a chronological event trace
  (condition entries, database queries, fetch-service calls) so that
  claims about short-circuiting and "no collaborator call" are statable.
* CPython `set` iteration order is hash-dependent and unspecified; the
  embedding canonicalises `set` accumulation to first-insertion order.
  Claims about set-valued results are stated up to membership.
-/

namespace StockScreening

/-- Python exceptions that can cross function boundaries in the screening
engine: the `UnboundLocalError` raised by the `fetch_service = fetch_service`
self-assignment, database/transport errors, fetch errors, and `ValueError`
from `datetime.strptime`. -/
inductive PyErr where
  | unboundLocalError
  | dbError (msg : String)
  | fetchError (msg : String)
  | valueError (msg : String)
deriving Repr, DecidableEq

/-- One row of the `stocks` catalog table (only the columns the embedded
conditions read). -/
structure StocksRow where
  code : String
  market : String
deriving Repr, DecidableEq

/-- One row of the `stock_daily` table (only the columns the embedded
conditions read); `closePrice` is nullable. -/
structure DailyRow where
  code : String
  tradeDate : String
  closePrice : Option ℚ
deriving Repr, DecidableEq

/-- One row of the `stock_market_value` table; the market-cap columns are
nullable. -/
structure MarketValueRow where
  code : String
  circulatingMarketCap : Option ℚ
  totalMarketCap : Option ℚ
  updateDate : String
deriving Repr, DecidableEq

/-- The relational store reached through `db_manager.execute_query`. -/
structure Database where
  stocks : List StocksRow
  stockDaily : List DailyRow
  stockMarketValue : List MarketValueRow
deriving Repr, DecidableEq

/-- A `db_manager` handle: either a reachable database, or a handle whose
every `execute_query` call raises (transport/connection failure). The
data-access contract raises only on transport failure, never on "no rows". -/
abbrev DbManager := Except PyErr Database

/-- One row of a pandas frame as consumed by the technical conditions:
the `close` column plus the indicator columns added by
`calculate_indicators`. A pandas `NaN` cell is `none`. -/
structure DfRow where
  close : ℚ
  dif : Option ℚ
  dea : Option ℚ
  macd : Option ℚ
deriving Repr, DecidableEq

/-- The `fetch_service` collaborator. `get_latest_trade_date` catches all
exceptions internally and returns `None` on failure (fetch_data_service.py),
so it is modelled as a plain `Option`; `fetch_stock_data` can raise. -/
structure FetchService where
  getLatestTradeDate : Option String
  fetchStockData : String → String → String → Except PyErr (List DfRow)

/-- A hydrated stock record as returned by `stock_service.get_stock`. -/
structure StockRec where
  code : String
  name : String
deriving Repr, DecidableEq

/-- Process-global collaborators and ambient library routines that the
screening code reaches when the caller injects nothing:
`src.core.db.db_manager`, `src.services.fetch_data_service.fetch_data_service`,
`stock_service` lookups, `calculate_indicators` from `src/charts/indicators.py`
(pure, floating-point; abstracted as a function parameter), and `datetime`
arithmetic (`today`/`daysAgo` for `datetime.now()`-based ranges, `dateSub`
for `strptime`/`timedelta`/`strftime`, which raises on a malformed date). -/
structure Globals where
  db : DbManager
  fetch : FetchService
  getStock : String → Option StockRec
  getAllStocks : List StockRec
  calcIndicators : List DfRow → String → List DfRow
  today : String
  daysAgo : Nat → String
  dateSub : String → Nat → Except PyErr String

/-- The collaborator slots a `context` dictionary can carry into a filter
invocation. A `None` context and an empty/keyless dict behave identically
in the source (`if context and 'db_manager' in context`), so both are the
all-`none` value. -/
structure Ctx where
  dbManager : Option DbManager
  fetchService : Option FetchService

/-- Python truthiness of an optional string: `None` and `''` are falsy. -/
def pyTruthyStr : Option String → Bool
  | none => false
  | some s => s != ""

/-- `set.update`: add the new elements of `xs` to the accumulated set `s`,
canonicalised to first-insertion order. -/
def pySetUpdate (s xs : List String) : List String :=
  xs.foldl (fun a x => if x ∈ a then a else a ++ [x]) s

/-- `set(xs)`: deduplicate, canonicalised to first-occurrence order. -/
def pyDedup (xs : List String) : List String :=
  pySetUpdate [] xs

/-- Lower-bound test: `min is None or min <= v` (the source skips a row
when `v < min`). -/
def passLo (bound : Option ℚ) (v : ℚ) : Bool :=
  match bound with
  | none => true
  | some b => decide (b ≤ v)

/-- Upper-bound test: `max is None or v <= max` (the source skips a row
when `v > max`). -/
def passHi (bound : Option ℚ) (v : ℚ) : Bool :=
  match bound with
  | none => true
  | some b => decide (v ≤ b)

/-- Pandas-style `<=` on possibly-NaN cells: a comparison with NaN is
false. -/
def naLe (a b : Option ℚ) : Bool :=
  match a, b with
  | some x, some y => decide (x ≤ y)
  | _, _ => false

/-- Pandas-style `<` on possibly-NaN cells: a comparison with NaN is
false. -/
def naLt (a b : Option ℚ) : Bool :=
  match a, b with
  | some x, some y => decide (x < y)
  | _, _ => false

/-- `MAX(update_date)` over the whole `stock_market_value` table. The SQL in
`MarketValueCondition` intends a per-code maximum, but the correlated
subquery's `WHERE code = stock_market_value.code` resolves both names to the
inner table (the inner `FROM` shadows the outer one), so the comparison is a
tautology and the maximum is global. -/
def maxUpdateDate (rows : List MarketValueRow) : Option String :=
  rows.foldl
    (fun m r =>
      match m with
      | none => some r.updateDate
      | some s => some (max s r.updateDate))
    none

/-- The condition tree (composite pattern): the leaf condition families
embedded here, plus the three combinators, each holding its ordered child
list. Parameters mirror the `self.params.get(...)` reads of each class,
with an absent keyword argument as `none`. -/
inductive Cond where
  | codeList (codes : List String) (exclude : Bool)
  | market (market : Option String)
  | marketValue (minValue maxValue : Option ℚ) (useTotal : Bool)
  | price (minPrice maxPrice : Option ℚ) (date : Option String)
  | changeRate (days : Nat) (minRate maxRate : Option ℚ) (date : Option String)
  | macd (signal : String) (period : String) (days : Nat)
  | and (conditions : List Cond)
  | or (conditions : List Cond)
  | not (conditions : List Cond)

/-- Observable events of one filter invocation, in chronological order: a
`filter` entry with its input, a `db_manager.execute_query` round-trip, or a
`fetch_service` method call. -/
inductive Ev where
  | enter (c : Cond) (input : List String)
  | dbQuery (sql : String)
  | fetchCall (method : String)

/-- `CodeListCondition.filter` (basic_conditions.py). `codes` defaults to
`[]`, `exclude` to `False`; note the source's early return
`return stock_codes if not exclude else []` when the code list is empty. -/
def CodeListCondition.filter (codes : List String) (exclude : Bool)
    (stock_codes : List String) : List String :=
  if codes.isEmpty then
    if !exclude then stock_codes else []
  else if exclude then
    stock_codes.filter (fun code => !codes.contains code)
  else
    stock_codes.filter (fun code => codes.contains code)

/-- `MarketCondition.filter` (basic_conditions.py): one catalog query
intersected with the input; the whole query is inside `try/except`, and a
raised database error yields `[]`. Returns (result, collaborator events). -/
def MarketCondition.filter (market : Option String) (stock_codes : List String)
    (context : Ctx) (g : Globals) : List String × List Ev :=
  match market with
  | none => (stock_codes, [])
  | some m =>
    if m = "" then (stock_codes, [])
    else if stock_codes.isEmpty then ([], [])
    else
      match context.dbManager.getD g.db with
      | .error _ => ([], [.dbQuery "SELECT code FROM stocks WHERE market"])
      | .ok d =>
          let market_stocks := (d.stocks.filter (fun r => r.market = m)).map (·.code)
          (stock_codes.filter (fun code => market_stocks.contains code),
           [.dbQuery "SELECT code FROM stocks WHERE market"])

/-- Row test for `MarketValueCondition`: the chosen market-cap column
against the present bounds; a SQL `NULL` column fails every added
comparison (at least one bound is present on this code path). -/
def capOk (v : Option ℚ) (minValue maxValue : Option ℚ) : Bool :=
  match v with
  | none => false
  | some x => passLo minValue x && passHi maxValue x

/-- `MarketValueCondition.filter` (basic_conditions.py): pass-through when
both bounds are absent, otherwise one `SELECT DISTINCT code` query
restricted to the input codes, the bounds, and the latest `update_date`
(global maximum, see `maxUpdateDate`); a raised database error yields `[]`. -/
def MarketValueCondition.filter (minValue maxValue : Option ℚ) (useTotal : Bool)
    (stock_codes : List String) (context : Ctx) (g : Globals) :
    List String × List Ev :=
  if stock_codes.isEmpty then ([], [])
  else if minValue.isNone && maxValue.isNone then (stock_codes, [])
  else
    match context.dbManager.getD g.db with
    | .error _ => ([], [.dbQuery "SELECT DISTINCT code FROM stock_market_value"])
    | .ok d =>
        let cap : MarketValueRow → Option ℚ := fun r =>
          if useTotal then r.totalMarketCap else r.circulatingMarketCap
        let latest := maxUpdateDate d.stockMarketValue
        let rows := d.stockMarketValue.filter (fun r =>
          stock_codes.contains r.code && capOk (cap r) minValue maxValue &&
            latest == some r.updateDate)
        (pyDedup (rows.map (·.code)),
         [.dbQuery "SELECT DISTINCT code FROM stock_market_value"])

/-- `PriceCondition.filter` (technical_conditions.py): pass-through when
both bounds are absent; otherwise resolve the trading day (the `date`
parameter if truthy, else one `get_latest_trade_date` call, `[]` if that
yields `None`), then one batched `stock_daily` query, keeping rows whose
non-null close price satisfies the bounds; a raised database error yields
`[]`. -/
def PriceCondition.filter (minPrice maxPrice : Option ℚ) (date : Option String)
    (stock_codes : List String) (context : Ctx) (g : Globals) :
    List String × List Ev :=
  if stock_codes.isEmpty then ([], [])
  else if minPrice.isNone && maxPrice.isNone then (stock_codes, [])
  else
    let fetch_service := context.fetchService.getD g.fetch
    let resolved :=
      if pyTruthyStr date then (date, ([] : List Ev))
      else (fetch_service.getLatestTradeDate, [Ev.fetchCall "get_latest_trade_date"])
    match resolved.1 with
    | none => ([], resolved.2)
    | some d =>
      match context.dbManager.getD g.db with
      | .error _ => ([], resolved.2 ++ [.dbQuery "SELECT code, close_price FROM stock_daily"])
      | .ok database =>
          let rows := database.stockDaily.filter (fun r =>
            stock_codes.contains r.code && r.tradeDate = d)
          -- the loop appends `row['code']` for rows whose non-null close
          -- price passes both bounds
          let keep : DailyRow → Bool := fun r =>
            match r.closePrice with
            | none => false
            | some price => passLo minPrice price && passHi maxPrice price
          ((rows.filter keep).map (·.code),
           resolved.2 ++ [.dbQuery "SELECT code, close_price FROM stock_daily"])

/-- `ChangeRateCondition.filter` (technical_conditions.py). The collaborator
fallback branch contains the self-assignment `fetch_service = fetch_service`,
so when the context carries no `fetch_service` the call raises
`UnboundLocalError` before any data access; `strptime` on a malformed
resolved date also raises (neither is inside a `try`). The per-code loop
catches every exception of one iteration and skips that code. -/
def ChangeRateCondition.filter (days : Nat) (minRate maxRate : Option ℚ)
    (date : Option String) (stock_codes : List String) (context : Ctx)
    (g : Globals) : Except PyErr (List String) × List Ev :=
  if stock_codes.isEmpty then (.ok [], [])
  else if minRate.isNone && maxRate.isNone then (.ok stock_codes, [])
  else
    match context.fetchService with
    | none => (.error .unboundLocalError, [])
    | some fetch_service =>
      let resolved :=
        if pyTruthyStr date then (date, ([] : List Ev))
        else (fetch_service.getLatestTradeDate, [Ev.fetchCall "get_latest_trade_date"])
      match resolved.1 with
      | none => (.ok [], resolved.2)
      | some d =>
        match g.dateSub d (days * 2) with
        | .error e => (.error e, resolved.2)
        | .ok start_date =>
            -- the loop appends `code` when the iteration neither fails nor
            -- skips; each iteration's outcome depends only on its own code,
            -- so the loop is the input filtered by the per-code test, with
            -- one fetch call per code
            let keep := fun code =>
              match fetch_service.fetchStockData code start_date d with
              | .error _ => false
              | .ok df =>
                  if df.length < days then false
                  else
                    -- `df.iloc[-days]`: index `len - days`, and `iloc[-0]` is
                    -- `iloc[0]`; an out-of-range access raises IndexError,
                    -- caught by the loop body: skip
                    let idx := if days = 0 then 0 else df.length - days
                    match df.get? idx, df.getLast? with
                    | some startRow, some endRow =>
                        let change_rate := (endRow.close - startRow.close) / startRow.close
                        passLo minRate change_rate && passHi maxRate change_rate
                    | _, _ => false
            (.ok (stock_codes.filter keep),
             resolved.2 ++ stock_codes.map (fun _ => Ev.fetchCall "fetch_stock_data"))

/-- The per-code signal test of `MACDCondition.filter`, on the last two
frame rows (`latest`, `prev`): golden/death cross of DIF against DEA, or the
sign of the MACD histogram (a NaN cell compares false, as in pandas). -/
def macdSignalKeep (signal : String) (prev latest : DfRow) : Bool :=
  if signal = "golden_cross" then
    naLe prev.dif prev.dea && naLt latest.dea latest.dif
  else if signal = "death_cross" then
    naLe prev.dea prev.dif && naLt latest.dif latest.dea
  else if signal = "positive" then
    naLt (some 0) latest.macd
  else if signal = "negative" then
    naLt latest.macd (some 0)
  else false

/-- `MACDCondition.filter` (technical_conditions.py). Shares the
`fetch_service = fetch_service` fallback bug with `ChangeRateCondition`.
Per code: fetch a `datetime.now()`-anchored series, skip on fetch failure or
fewer than 30 rows, run `calculate_indicators`, skip when any DIF/DEA cell
is NaN, then test the configured signal on the last two rows. -/
def MACDCondition.filter (signal period : String) (days : Nat)
    (stock_codes : List String) (context : Ctx) (g : Globals) :
    Except PyErr (List String) × List Ev :=
  if stock_codes.isEmpty then (.ok [], [])
  else
    match context.fetchService with
    | none => (.error .unboundLocalError, [])
    | some fetch_service =>
      let end_date := g.today
      let start_date := g.daysAgo (days * 2)
      -- as in `ChangeRateCondition`, each iteration's outcome depends only
      -- on its own code: the loop is the input filtered by the per-code
      -- test, with one fetch call per code
      let keep := fun code =>
        match fetch_service.fetchStockData code start_date end_date with
        | .error _ => false
        | .ok df0 =>
            if df0.length < 30 then false
            else
              let df := g.calcIndicators df0 period
              if df.any (fun r => r.dif.isNone) || df.any (fun r => r.dea.isNone) then
                false
              else
                match df.getLast? with
                | none => false
                | some latest =>
                    let prev :=
                      if df.length > 1 then (df.get? (df.length - 2)).getD latest
                      else latest
                    macdSignalKeep signal prev latest
      (.ok (stock_codes.filter keep),
       stock_codes.map (fun _ => Ev.fetchCall "fetch_stock_data"))

mutual

/-- The dispatching `filter` of the condition tree (`BaseCondition.filter`
and the three combinators), instrumented with the chronological event
trace. Combinator semantics are exactly the source loops: AND chains and
breaks on an empty intermediate result; OR and NOT evaluate every child on
the original input and accumulate a result/matched set. -/
def filterT (c : Cond) (stock_codes : List String) (context : Ctx)
    (g : Globals) : Except PyErr (List String) × List Ev :=
  match c with
  | .codeList codes exclude =>
      (.ok (CodeListCondition.filter codes exclude stock_codes),
       [.enter c stock_codes])
  | .market market =>
      let r := MarketCondition.filter market stock_codes context g
      (.ok r.1, .enter c stock_codes :: r.2)
  | .marketValue mn mx useTotal =>
      let r := MarketValueCondition.filter mn mx useTotal stock_codes context g
      (.ok r.1, .enter c stock_codes :: r.2)
  | .price mn mx date =>
      let r := PriceCondition.filter mn mx date stock_codes context g
      (.ok r.1, .enter c stock_codes :: r.2)
  | .changeRate days mn mx date =>
      let r := ChangeRateCondition.filter days mn mx date stock_codes context g
      (r.1, .enter c stock_codes :: r.2)
  | .macd signal period days =>
      let r := MACDCondition.filter signal period days stock_codes context g
      (r.1, .enter c stock_codes :: r.2)
  | .and cs =>
      if cs.isEmpty then (.ok stock_codes, [.enter c stock_codes])
      else if stock_codes.isEmpty then (.ok [], [.enter c stock_codes])
      else
        let r := andLoop cs stock_codes context g
        (r.1, .enter c stock_codes :: r.2)
  | .or cs =>
      if cs.isEmpty then (.ok stock_codes, [.enter c stock_codes])
      else if stock_codes.isEmpty then (.ok [], [.enter c stock_codes])
      else
        let r := orLoop cs stock_codes [] context g
        (r.1, .enter c stock_codes :: r.2)
  | .not cs =>
      if cs.isEmpty then (.ok stock_codes, [.enter c stock_codes])
      else if stock_codes.isEmpty then (.ok [], [.enter c stock_codes])
      else
        match orLoop cs stock_codes [] context g with
        | (.ok matched, tr) =>
            (.ok ((pyDedup stock_codes).filter (fun x => !matched.contains x)),
             .enter c stock_codes :: tr)
        | (.error e, tr) => (.error e, .enter c stock_codes :: tr)

/-- The `AndCombinator.filter` loop: feed each child the previous child's
output, breaking as soon as an intermediate result is empty. -/
def andLoop (cs : List Cond) (result : List String) (context : Ctx)
    (g : Globals) : Except PyErr (List String) × List Ev :=
  match cs with
  | [] => (.ok result, [])
  | cond :: rest =>
      match filterT cond result context g with
      | (.error e, tr) => (.error e, tr)
      | (.ok r, tr) =>
          if r.isEmpty then (.ok r, tr)
          else
            let rec' := andLoop rest r context g
            (rec'.1, tr ++ rec'.2)

/-- The accumulation loop shared by `OrCombinator.filter` and
`NotCombinator.filter`: evaluate every child on the unmodified input and
`set.update` the accumulator with each child's output. -/
def orLoop (cs : List Cond) (stock_codes : List String)
    (result_set : List String) (context : Ctx) (g : Globals) :
    Except PyErr (List String) × List Ev :=
  match cs with
  | [] => (.ok result_set, [])
  | cond :: rest =>
      match filterT cond stock_codes context g with
      | (.error e, tr) => (.error e, tr)
      | (.ok filtered, tr) =>
          let rec' := orLoop rest stock_codes (pySetUpdate result_set filtered) context g
          (rec'.1, tr ++ rec'.2)

end

/-- `Condition.filter` as the caller observes it: the result (or escaped
exception) of `filterT`, without the event trace. -/
def Cond.filter (c : Cond) (stock_codes : List String) (context : Ctx)
    (g : Globals) : Except PyErr (List String) :=
  (filterT c stock_codes context g).1

/-- A value stored in a `context` dictionary: one of the two collaborator
handles the engine reads, or any other caller payload. -/
inductive CtxVal where
  | dbm (d : DbManager)
  | fsv (f : FetchService)
  | other (tag : String)

/-- A Python dict as the screening code uses it: string keys, insertion
order preserved. -/
abbrev PyDict := List (String × CtxVal)

/-- `d[k]` / `k in d`: first binding of `k`, if any. -/
def pyLookup (d : PyDict) (k : String) : Option CtxVal :=
  match d with
  | [] => none
  | (k', v) :: rest => if k' = k then some v else pyLookup rest k

/-- `dict.setdefault(k, v)`: mutate the dict by appending `(k, v)` when `k`
is absent; a present key (whatever its value) is left untouched. -/
def pySetdefault (d : PyDict) (k : String) (v : CtxVal) : PyDict :=
  match pyLookup d k with
  | some _ => d
  | none => d ++ [(k, v)]

/-- `ScreeningService._prepare_context`: replace `None` by a fresh dict,
then `setdefault` the two collaborator slots to the process-global handles.
The source mutates the caller's dict in place and returns the same object;
the embedding passes that state explicitly, so the returned dict is the
caller's dict after the call. -/
def prepareContext (context : Option PyDict) (g : Globals) : PyDict :=
  let context := context.getD []
  let context := pySetdefault context "db_manager" (.dbm g.db)
  pySetdefault context "fetch_service" (.fsv g.fetch)

/-- The collaborator slots a condition's `filter` extracts from a context
dict (`if context and 'db_manager' in context: ...`). A slot holding a
value of the wrong type would fail only at a later attribute access in
Python; such ill-typed dicts are mapped to the absent slot. -/
def dictToCtx (d : PyDict) : Ctx :=
  { dbManager :=
      match pyLookup d "db_manager" with
      | some (.dbm m) => some m
      | _ => none
    fetchService :=
      match pyLookup d "fetch_service" with
      | some (.fsv f) => some f
      | _ => none }

/-- `ScreeningService` instance state: the lifetime-cached universe
(`self._all_stocks_cache`), invalidated only by `clear_cache`. -/
structure ScreeningService where
  allStocksCache : Option (List String)

/-- `ScreeningService._get_initial_codes`: the caller's explicit list if
given, else the cached full catalog (filling the cache on first use).
Returns the codes together with the updated service state. -/
def getInitialCodes (svc : ScreeningService) (initial_codes : Option (List String))
    (g : Globals) : List String × ScreeningService :=
  match initial_codes with
  | some codes => (codes, svc)
  | none =>
    match svc.allStocksCache with
    | some cache => (cache, svc)
    | none =>
        let cache := g.getAllStocks.map (·.code)
        (cache, { svc with allStocksCache := some cache })

/-- `ScreeningService.screen_stocks`: prepare the context, resolve the
universe, filter, then hydrate each surviving code through
`stock_service.get_stock`, keeping only truthy records. Returns the result
(or the escaped exception), the updated service state, and the caller's
context dict after the call (mutated before the filter runs). -/
def screenStocks (svc : ScreeningService) (condition : Cond)
    (initial_codes : Option (List String)) (context : Option PyDict)
    (g : Globals) :
    Except PyErr (List StockRec) × ScreeningService × PyDict :=
  let ctxDict := prepareContext context g
  let resolved := getInitialCodes svc initial_codes g
  match condition.filter resolved.1 (dictToCtx ctxDict) g with
  | .error e => (.error e, resolved.2, ctxDict)
  | .ok filtered_codes =>
      (.ok (filtered_codes.filterMap g.getStock), resolved.2, ctxDict)

/-- `ScreeningService.count_stocks`: same preparation and filter
invocation as `screen_stocks`, returning only the cardinality. -/
def countStocks (svc : ScreeningService) (condition : Cond)
    (initial_codes : Option (List String)) (context : Option PyDict)
    (g : Globals) : Except PyErr Nat × ScreeningService × PyDict :=
  let ctxDict := prepareContext context g
  let resolved := getInitialCodes svc initial_codes g
  match condition.filter resolved.1 (dictToCtx ctxDict) g with
  | .error e => (.error e, resolved.2, ctxDict)
  | .ok filtered_codes => (.ok filtered_codes.length, resolved.2, ctxDict)

/-- `ScreeningService.get_stock_codes`: same preparation and filter
invocation, returning the surviving identifiers unhydrated. -/
def getStockCodes (svc : ScreeningService) (condition : Cond)
    (initial_codes : Option (List String)) (context : Option PyDict)
    (g : Globals) : Except PyErr (List String) × ScreeningService × PyDict :=
  let ctxDict := prepareContext context g
  let resolved := getInitialCodes svc initial_codes g
  match condition.filter resolved.1 (dictToCtx ctxDict) g with
  | .error e => (.error e, resolved.2, ctxDict)
  | .ok filtered_codes => (.ok filtered_codes, resolved.2, ctxDict)

/-- `ScreeningService.clear_cache`: drop the cached universe. -/
def clearCache (_svc : ScreeningService) : ScreeningService :=
  { allStocksCache := none }

/-- An empty database: every table empty, connection healthy. -/
def dbEmpty : Database :=
  { stocks := [], stockDaily := [], stockMarketValue := [] }

/-- A trivial healthy collaborator environment for concrete evaluations. -/
def gTest : Globals :=
  { db := .ok dbEmpty
    fetch :=
      { getLatestTradeDate := none
        fetchStockData := fun _ _ _ => .ok [] }
    getStock := fun _ => none
    getAllStocks := []
    calcIndicators := fun df _ => df
    today := "2026-01-02"
    daysAgo := fun _ => "2025-01-02"
    dateSub := fun _ _ => .ok "2025-01-02" }

/-- The environment with an unreachable database: every
`db_manager.execute_query` raises. -/
def gDbDown : Globals :=
  { gTest with db := .error (.dbError "connection refused") }

/-- The empty context (`context=None`, or a dict without collaborator
slots). -/
def ctxNone : Ctx :=
  { dbManager := none, fetchService := none }

/-- Wellformedness of the relational store: `stock_daily` is key-unique on
`(code, trade_date)` — the repository's ingestion SQL upserts with
`ON CONFLICT (code, trade_date)` (akshare_daily_sql.py), so a real store
never holds two rows with the same key. An unreachable manager is
vacuously wellformed. -/
def DbWf : DbManager → Prop
  | .error _ => True
  | .ok d => (d.stockDaily.map (fun r => (r.code, r.tradeDate))).Nodup

/-! ### Helper lemmas on the Python-set model -/

theorem pySetUpdate_nil_right (s : List String) : pySetUpdate s [] = s := rfl

theorem pySetUpdate_cons (s : List String) (y : String) (xs : List String) :
    pySetUpdate s (y :: xs) = pySetUpdate (if y ∈ s then s else s ++ [y]) xs := rfl

theorem mem_pySetUpdate (s xs : List String) (x : String) :
    x ∈ pySetUpdate s xs ↔ x ∈ s ∨ x ∈ xs := by
  induction xs generalizing s with
  | nil => simp [pySetUpdate]
  | cons y xs ih =>
      rw [pySetUpdate_cons, ih]
      by_cases hy : y ∈ s
      · simp only [hy, if_true, List.mem_cons]
        constructor
        · rintro (h | h)
          · exact Or.inl h
          · exact Or.inr (Or.inr h)
        · rintro (h | rfl | h)
          · exact Or.inl h
          · exact Or.inl hy
          · exact Or.inr h
      · simp only [hy, if_false, List.mem_append, List.mem_singleton, List.mem_cons]
        tauto

theorem nodup_pySetUpdate (s xs : List String) (h : s.Nodup) :
    (pySetUpdate s xs).Nodup := by
  induction xs generalizing s with
  | nil => exact h
  | cons y xs ih =>
      rw [pySetUpdate_cons]
      by_cases hy : y ∈ s
      · simpa [hy] using ih s h
      · simp only [hy, if_false]
        refine ih (s ++ [y]) ?_
        simp [List.nodup_append, h, hy]

theorem mem_pyDedup (xs : List String) (x : String) :
    x ∈ pyDedup xs ↔ x ∈ xs := by
  simp [pyDedup, mem_pySetUpdate]

theorem nodup_pyDedup (xs : List String) : (pyDedup xs).Nodup :=
  nodup_pySetUpdate [] xs List.nodup_nil

/-! ### Every condition maps the empty input to the empty output
(each `filter` body early-returns before touching a collaborator) -/

theorem filterT_nil (c : Cond) (ctx : Ctx) (g : Globals) :
    filterT c [] ctx g = (.ok [], [.enter c []]) := by
  cases c with
  | codeList codes exclude =>
      simp only [filterT, CodeListCondition.filter]
      split <;> simp
  | market market =>
      cases market with
      | none => simp [filterT, MarketCondition.filter]
      | some m =>
          by_cases hm : m = "" <;> simp [filterT, MarketCondition.filter, hm]
  | marketValue mn mx useTotal => simp [filterT, MarketValueCondition.filter]
  | price mn mx date => simp [filterT, PriceCondition.filter]
  | changeRate days mn mx date => simp [filterT, ChangeRateCondition.filter]
  | macd signal period days => simp [filterT, MACDCondition.filter]
  | and cs => cases cs <;> simp [filterT]
  | or cs => cases cs <;> simp [filterT]
  | not cs => cases cs <;> simp [filterT]

theorem filter_nil (c : Cond) (ctx : Ctx) (g : Globals) :
    Cond.filter c [] ctx g = .ok [] := by
  simp [Cond.filter, filterT_nil]

/-! ### The AND chain -/

theorem exceptBind_ok {α β : Type} {e : Type} (a : α) (f : α → Except e β) :
    (Except.ok a >>= f) = f a := rfl

theorem exceptBind_error {α β : Type} {e : Type} (err : e) (f : α → Except e β) :
    ((Except.error err : Except e α) >>= f) = Except.error err := rfl

/-- The left fold of the chain over an empty pool stays empty: every child
maps `[]` to `.ok []`. -/
theorem chain_nil (cs : List Cond) (ctx : Ctx) (g : Globals) :
    cs.foldlM (fun acc c => Cond.filter c acc ctx g) ([] : List String) = .ok [] := by
  induction cs with
  | nil => rfl
  | cons c cs ih => simp [List.foldlM_cons, filter_nil, ih, exceptBind_ok]

/-- The `AndCombinator` loop computes the left fold of the children over the
running pool (breaking on an empty intermediate result changes nothing:
every child maps `[]` to `.ok []`). -/
theorem andLoop_chain (cs : List Cond) (ctx : Ctx) (g : Globals) :
    ∀ acc, (andLoop cs acc ctx g).1 =
      cs.foldlM (fun acc c => Cond.filter c acc ctx g) acc := by
  induction cs with
  | nil => intro acc; rfl
  | cons c cs ih =>
      intro acc
      rw [andLoop]
      rcases h : filterT c acc ctx g with ⟨res, tr⟩
      cases res with
      | error e => simp [h, Cond.filter, List.foldlM_cons, exceptBind_error]
      | ok r =>
          by_cases hr : r = []
          · subst hr
            simp [h, Cond.filter, List.foldlM_cons, exceptBind_ok]
            exact (chain_nil cs ctx g).symm
          · simp [h, hr, Cond.filter, List.foldlM_cons, ih r, exceptBind_ok]

/-- C1: for every child list and input, `AndCombinator.filter` equals the
left-to-right chain — each child receives the previous child's output, the
fold starting from the input — and `Conjunction([])` returns the input
unchanged. -/
theorem and_combinator_chain (cs : List Cond) (I : List String) (ctx : Ctx)
    (g : Globals) :
    Cond.filter (.and cs) I ctx g =
        cs.foldlM (fun acc c => Cond.filter c acc ctx g) I ∧
      Cond.filter (.and []) I ctx g = .ok I := by
  refine ⟨?_, rfl⟩
  cases cs with
  | nil => rfl
  | cons c cs =>
      by_cases hI : I = []
      · subst hI
        simp only [Cond.filter, filterT, List.isEmpty_cons, if_false,
          List.isEmpty_nil, if_true]
        exact (chain_nil (c :: cs) ctx g).symm
      · have hne : I.isEmpty = false := by simp [List.isEmpty_iff, hI]
        simp only [Cond.filter, filterT, List.isEmpty_cons, if_false, hne,
          Bool.false_eq_true]
        exact andLoop_chain (c :: cs) ctx g I

/-! ### Short-circuiting of the AND loop -/

/-- Once the running result of the `AndCombinator` loop has become empty,
appending further children changes neither the result nor the event trace:
the loop breaks before reaching them. -/
theorem andLoop_append (ctx : Ctx) (g : Globals) :
    ∀ cs more acc, cs ≠ [] → (andLoop cs acc ctx g).1 = .ok [] →
      andLoop (cs ++ more) acc ctx g = andLoop cs acc ctx g := by
  intro cs
  induction cs with
  | nil => intro more acc h; exact absurd rfl h
  | cons c cs ih =>
      intro more acc _ hok
      rw [List.cons_append, andLoop, andLoop] at *
      rcases h : filterT c acc ctx g with ⟨res, tr⟩
      rw [h] at hok
      cases res with
      | error e => simp
      | ok r =>
          by_cases hr : r = []
          · simp [hr]
          · simp only [List.isEmpty_iff, hr, if_false] at hok ⊢
            have hcs : cs ≠ [] := by
              intro hnil
              subst hnil
              simp [andLoop] at hok
              exact hr hok
            rw [ih more r hcs hok]

/-- C5: `AndCombinator` short-circuits. First part: when the first child
returns an empty result, the whole combinator's event trace is its own
entry followed by (for a nonempty input) exactly the first child's events —
no event of any remaining child occurs, so `C2.filter` is never called.
Second part: mid-chain, as soon as the loop's intermediate result is empty,
appending further children changes neither result nor trace. -/
theorem and_combinator_short_circuit (ctx : Ctx) (g : Globals) :
    (∀ c1 rest I, (filterT c1 I ctx g).1 = .ok [] →
        (filterT (.and (c1 :: rest)) I ctx g).2 =
          .enter (.and (c1 :: rest)) I ::
            (if I = [] then [] else (filterT c1 I ctx g).2)) ∧
    (∀ cs more acc, cs ≠ [] → (andLoop cs acc ctx g).1 = .ok [] →
        andLoop (cs ++ more) acc ctx g = andLoop cs acc ctx g) := by
  refine ⟨?_, andLoop_append ctx g⟩
  intro c1 rest I h1
  by_cases hI : I = []
  · subst hI
    simp [filterT]
  · have hne : I.isEmpty = false := by simp [List.isEmpty_iff, hI]
    simp only [filterT, List.isEmpty_cons, if_false, hne, Bool.false_eq_true,
      hI]
    rw [andLoop]
    rcases h : filterT c1 I ctx g with ⟨res, tr⟩
    rw [h] at h1
    simp only at h1
    subst h1
    simp

/-- Witness for C5 at a concrete tree: the first child `include {X}` empties
the pool `[A]`, and the AND node's trace is its entry plus the first
child's events only — the second child contributes nothing. -/
theorem and_combinator_short_circuit_witness :
    ((filterT (.and [Cond.codeList ["X"] false, Cond.codeList ["A"] false])
        ["A"] ctxNone gTest).2 =
      .enter (.and [Cond.codeList ["X"] false, Cond.codeList ["A"] false]) ["A"] ::
        (filterT (.codeList ["X"] false) ["A"] ctxNone gTest).2) ∧
      andLoop ([Cond.codeList ["X"] false] ++ [Cond.codeList ["A"] false])
          ["A"] ctxNone gTest =
        andLoop [Cond.codeList ["X"] false] ["A"] ctxNone gTest := by
  constructor
  · have h := (and_combinator_short_circuit ctxNone gTest).1
      (.codeList ["X"] false) [Cond.codeList ["A"] false] ["A"] rfl
    simpa using h
  · exact (and_combinator_short_circuit ctxNone gTest).2
      [Cond.codeList ["X"] false] [Cond.codeList ["A"] false] ["A"]
      (by simp) rfl

/-! ### The OR/NOT accumulation loop -/

/-- Membership in a successful `orLoop` run: exactly the accumulator's
elements plus the elements of some child's output, every child evaluated on
the unmodified input `I`. -/
theorem orLoop_mem (ctx : Ctx) (g : Globals) (I : List String) :
    ∀ cs acc out tr, orLoop cs I acc ctx g = (.ok out, tr) →
      ∀ x, x ∈ out ↔
        x ∈ acc ∨ ∃ c ∈ cs, ∃ r, Cond.filter c I ctx g = .ok r ∧ x ∈ r := by
  intro cs
  induction cs with
  | nil =>
      intro acc out tr h x
      rw [orLoop] at h
      simp only [Prod.mk.injEq, Except.ok.injEq] at h
      simp [← h.1]
  | cons c cs ih =>
      intro acc out tr h x
      rw [orLoop] at h
      rcases hf : filterT c I ctx g with ⟨res, tr0⟩
      rw [hf] at h
      cases res with
      | error e => simp at h
      | ok filtered =>
          simp only at h
          rcases hrec : orLoop cs I (pySetUpdate acc filtered) ctx g with ⟨res2, tr2⟩
          rw [hrec] at h
          simp only [Prod.mk.injEq] at h
          cases res2 with
          | error e => exact absurd h.1 (by simp)
          | ok out2 =>
              have hout : out2 = out := by simpa using h.1
              have hm := ih (pySetUpdate acc filtered) out2 tr2 hrec x
              rw [← hout, hm, mem_pySetUpdate]
              have hfc : Cond.filter c I ctx g = .ok filtered := by
                simp [Cond.filter, hf]
              constructor
              · rintro ((hx | hx) | hx)
                · exact Or.inl hx
                · exact Or.inr ⟨c, by simp, filtered, hfc, hx⟩
                · rcases hx with ⟨c', hc', r, hr, hxr⟩
                  exact Or.inr ⟨c', by simp [hc'], r, hr, hxr⟩
              · rintro (hx | hx)
                · exact Or.inl (Or.inl hx)
                · rcases hx with ⟨c', hc', r, hr, hxr⟩
                  rcases List.mem_cons.mp hc' with rfl | hc'
                  · rw [hfc] at hr
                    cases hr
                    exact Or.inl (Or.inr hxr)
                  · exact Or.inr ⟨c', hc', r, hr, hxr⟩

/-- C2: for a nonempty child list, a successful `OrCombinator.filter` run
is, as a set, the union of the children's outputs, every child
evaluated on the original unmodified input; `Disjunction([])` returns the
input unchanged. -/
theorem or_combinator_union (cs : List Cond) (I : List String) (ctx : Ctx)
    (g : Globals) :
    Cond.filter (.or []) I ctx g = .ok I ∧
    (cs ≠ [] → ∀ out, Cond.filter (.or cs) I ctx g = .ok out →
      ∀ x, x ∈ out ↔ ∃ c ∈ cs, ∃ r, Cond.filter c I ctx g = .ok r ∧ x ∈ r) := by
  refine ⟨rfl, ?_⟩
  intro hcs out hout x
  cases cs with
  | nil => exact absurd rfl hcs
  | cons c cs =>
      by_cases hI : I = []
      · subst hI
        have hO : out = [] := by
          have := filterT_nil (.or (c :: cs)) ctx g
          simp [Cond.filter, this] at hout
          exact hout
        subst hO
        simp only [List.not_mem_nil, false_iff]
        rintro ⟨c', hc', r, hr, hxr⟩
        rw [filter_nil] at hr
        cases hr
        simp at hxr
      · have hne : I.isEmpty = false := by simp [List.isEmpty_iff, hI]
        simp only [Cond.filter, filterT, List.isEmpty_cons, if_false, hne,
          Bool.false_eq_true] at hout
        rcases horl : orLoop (c :: cs) I [] ctx g with ⟨res, tr⟩
        rw [horl] at hout
        cases res with
        | error e => simp at hout
        | ok out2 =>
            have hO : out2 = out := by simpa using hout
            subst hO
            have hm := orLoop_mem ctx g I (c :: cs) [] out2 tr horl x
            simpa using hm

/-- Witness for C2 at the concrete tree
`Disjunction([include {A}, include {B}])` on input `[A, B, C]`: the result
is `[A, B]` and membership of `A` matches the union characterisation. -/
theorem or_combinator_union_witness :
    ("A" : String) ∈ (["A", "B"] : List String) ↔
      ∃ c ∈ [Cond.codeList ["A"] false, Cond.codeList ["B"] false], ∃ r,
        Cond.filter c ["A", "B", "C"] ctxNone gTest = .ok r ∧
          ("A" : String) ∈ r :=
  (or_combinator_union [Cond.codeList ["A"] false, Cond.codeList ["B"] false]
    ["A", "B", "C"] ctxNone gTest).2 (by simp) ["A", "B"] rfl "A"

/-- C3: a successful `NotCombinator.filter` run is, as a set, the input
minus the union of the children's matches, every child evaluated on the
original input; `Negation([])` returns the input unchanged. -/
theorem not_combinator_complement (cs : List Cond) (I : List String)
    (ctx : Ctx) (g : Globals) :
    Cond.filter (.not []) I ctx g = .ok I ∧
    (∀ out, Cond.filter (.not cs) I ctx g = .ok out →
      ∀ x, x ∈ out ↔ x ∈ I ∧
        ¬∃ c ∈ cs, ∃ r, Cond.filter c I ctx g = .ok r ∧ x ∈ r) := by
  refine ⟨rfl, ?_⟩
  intro out hout x
  cases cs with
  | nil =>
      have hO : out = I := by
        simpa [Cond.filter, filterT] using hout.symm
      subst hO
      simp
  | cons c cs =>
      by_cases hI : I = []
      · subst hI
        have hO : out = [] := by
          have := filterT_nil (.not (c :: cs)) ctx g
          simp [Cond.filter, this] at hout
          exact hout
        subst hO
        simp
      · have hne : I.isEmpty = false := by simp [List.isEmpty_iff, hI]
        simp only [Cond.filter, filterT, List.isEmpty_cons, if_false, hne,
          Bool.false_eq_true] at hout
        rcases horl : orLoop (c :: cs) I [] ctx g with ⟨res, tr⟩
        rw [horl] at hout
        cases res with
        | error e => simp at hout
        | ok matched =>
            simp only at hout
            have hO : out = (pyDedup I).filter (fun x => !matched.contains x) := by
              simpa using hout.symm
            subst hO
            have hm : x ∈ matched ↔
                ∃ c' ∈ c :: cs, ∃ r, Cond.filter c' I ctx g = .ok r ∧ x ∈ r := by
              simpa using orLoop_mem ctx g I (c :: cs) [] matched tr horl x
            constructor
            · intro hx
              rw [List.mem_filter] at hx
              rcases hx with ⟨hx1, hx2⟩
              rw [mem_pyDedup] at hx1
              refine ⟨hx1, ?_⟩
              intro hex
              rw [← hm] at hex
              simp [hex] at hx2
            · rintro ⟨hxI, hxm⟩
              rw [List.mem_filter, mem_pyDedup]
              refine ⟨hxI, ?_⟩
              have hnm : x ∉ matched := fun hmem => hxm (hm.mp hmem)
              simp [hnm]

/-- Witness for C3 at the concrete tree `Negation([include {A}])` on input
`[A, B]`: the result is `[B]`, and membership of `B` matches the
complement characterisation. -/
theorem not_combinator_complement_witness :
    ("B" : String) ∈ (["B"] : List String) ↔
      ("B" : String) ∈ (["A", "B"] : List String) ∧
        ¬∃ c ∈ [Cond.codeList ["A"] false], ∃ r,
          Cond.filter c ["A", "B"] ctxNone gTest = .ok r ∧
            ("B" : String) ∈ r :=
  (not_combinator_complement [Cond.codeList ["A"] false] ["A", "B"]
    ctxNone gTest).2 ["B"] rfl "B"

/-- C8: with no filter value supplied (both optional bounds absent),
`PriceCondition.filter` and `MarketValueCondition.filter` return the input
unchanged and their entire event trace is the single `filter` entry — no
database query and no fetch-service call is issued. -/
theorem optional_params_passthrough (I : List String) (ctx : Ctx)
    (g : Globals) (useTotal : Bool) (date : Option String) :
    filterT (.marketValue none none useTotal) I ctx g =
        (.ok I, [.enter (.marketValue none none useTotal) I]) ∧
      filterT (.price none none date) I ctx g =
        (.ok I, [.enter (.price none none date) I]) := by
  cases I with
  | nil =>
      constructor <;>
        simp [filterT, MarketValueCondition.filter, PriceCondition.filter]
  | cons a as =>
      constructor <;>
        simp [filterT, MarketValueCondition.filter, PriceCondition.filter]

/-- C4 (failing evaluation): `CodeListCondition` with an **empty** code
list returns the whole input in include mode and nothing in exclude mode —
the opposite of the documented `include(∅) = ∅` / `exclude(∅) = I` policy
(and of the repo's own `test_filter_no_codes`, which expects `[]` from
include mode). -/
theorem code_list_empty_set_eval :
    Cond.filter (.codeList [] false) ["000001", "000002"] ctxNone gTest =
        .ok ["000001", "000002"] ∧
      Cond.filter (.codeList [] true) ["000001", "000002"] ctxNone gTest =
        .ok [] := by
  constructor <;> rfl

/-- C6 (boundary evaluation): a batched condition whose database query
raises is caught and yields `∅` (`MarketCondition`), but
`ChangeRateCondition` invoked without an injected `fetch_service`
raises `UnboundLocalError` (`fetch_service = fetch_service` in the
fallback branch) — the exception escapes the `Condition.filter` boundary,
and `MACDCondition` shares the same escape. -/
theorem condition_boundary_eval :
    Cond.filter (.market (some "SH")) ["000001"] ctxNone gDbDown = .ok [] ∧
      Cond.filter (.changeRate 5 (some (1 / 10 : ℚ)) none none) ["000001"]
          ctxNone gTest =
        .error .unboundLocalError ∧
      Cond.filter (.macd "golden_cross" "D" 60) ["000001"] ctxNone gTest =
        .error .unboundLocalError := by
  refine ⟨rfl, ?_, rfl⟩
  rfl

/-! ### Per-leaf soundness: outputs are drawn from the input, and nodup
inputs give nodup outputs -/

theorem codeList_sound (codes : List String) (exclude : Bool)
    (I : List String) :
    (∀ x ∈ CodeListCondition.filter codes exclude I, x ∈ I) ∧
      (I.Nodup → (CodeListCondition.filter codes exclude I).Nodup) := by
  by_cases hc : codes.isEmpty
  · cases exclude <;> simp [CodeListCondition.filter, hc]
  · cases exclude <;>
      · simp only [CodeListCondition.filter, hc, if_false, Bool.cond_self,
          if_true, if_false, Bool.false_eq_true]
        constructor
        · intro x hx
          exact (List.mem_filter.mp hx).1
        · intro h
          exact h.filter _

theorem market_sound (market : Option String) (I : List String) (ctx : Ctx)
    (g : Globals) :
    (∀ x ∈ (MarketCondition.filter market I ctx g).1, x ∈ I) ∧
      (I.Nodup → (MarketCondition.filter market I ctx g).1.Nodup) := by
  unfold MarketCondition.filter
  cases market with
  | none => simp
  | some m =>
      by_cases hm : m = ""
      · simp [hm]
      · simp only [hm, if_false]
        by_cases hI : I.isEmpty
        · simp [hI]
        · simp only [hI, if_false, Bool.false_eq_true]
          cases hdb : ctx.dbManager.getD g.db with
          | error e => simp
          | ok d =>
              constructor
              · intro x hx
                exact (List.mem_filter.mp hx).1
              · intro h
                exact h.filter _

theorem marketValue_sound (mn mx : Option ℚ) (useTotal : Bool)
    (I : List String) (ctx : Ctx) (g : Globals) :
    (∀ x ∈ (MarketValueCondition.filter mn mx useTotal I ctx g).1, x ∈ I) ∧
      (I.Nodup → (MarketValueCondition.filter mn mx useTotal I ctx g).1.Nodup) := by
  unfold MarketValueCondition.filter
  by_cases hI : I.isEmpty
  · simp [hI]
  · simp only [hI, if_false, Bool.false_eq_true]
    by_cases hb : mn.isNone && mx.isNone
    · simp [hb]
    · simp only [hb, if_false, Bool.false_eq_true]
      cases hdb : ctx.dbManager.getD g.db with
      | error e => simp
      | ok d =>
          constructor
          · intro x hx
            simp only [mem_pyDedup, List.mem_map] at hx
            rcases hx with ⟨r, hr, rfl⟩
            have := (List.mem_filter.mp hr).2
            simp only [Bool.and_eq_true] at this
            have hcont := this.1.1
            simpa using hcont
          · intro _
            exact nodup_pyDedup _

/-- Projecting key-unique daily rows that all share one trading day onto
their codes keeps them duplicate-free. -/
theorem codes_nodup_of_const_date (l : List DailyRow) (d : String)
    (hp : (l.map (fun r => (r.code, r.tradeDate))).Nodup)
    (hd : ∀ r ∈ l, r.tradeDate = d) : (l.map (·.code)).Nodup := by
  induction l with
  | nil => simp
  | cons r l ih =>
      simp only [List.map_cons, List.nodup_cons] at hp ⊢
      refine ⟨?_, ih hp.2 (fun r' hr' => hd r' (List.mem_cons_of_mem r hr'))⟩
      intro hmem
      rcases List.mem_map.mp hmem with ⟨r', hr', hcode⟩
      apply hp.1
      rw [List.mem_map]
      refine ⟨r', hr', ?_⟩
      have h1 : r'.tradeDate = d := hd r' (List.mem_cons_of_mem r hr')
      have h2 : r.tradeDate = d := hd r (List.mem_cons_self r l)
      rw [Prod.mk.injEq]
      exact ⟨hcode, h1.trans h2.symm⟩

theorem price_sound (mn mx : Option ℚ) (date : Option String)
    (I : List String) (ctx : Ctx) (g : Globals)
    (hwf : DbWf (ctx.dbManager.getD g.db)) :
    (∀ x ∈ (PriceCondition.filter mn mx date I ctx g).1, x ∈ I) ∧
      (I.Nodup → (PriceCondition.filter mn mx date I ctx g).1.Nodup) := by
  unfold PriceCondition.filter
  by_cases hI : I.isEmpty
  · simp [hI]
  · simp only [hI, if_false, Bool.false_eq_true]
    by_cases hb : mn.isNone && mx.isNone
    · simp [hb]
    · simp only [hb, if_false, Bool.false_eq_true]
      cases hdr :
          (if pyTruthyStr date = true then (date, ([] : List Ev))
           else ((ctx.fetchService.getD g.fetch).getLatestTradeDate,
             [Ev.fetchCall "get_latest_trade_date"])).1 with
      | none => simp [hdr]
      | some d =>
          simp only [hdr]
          cases hdb : ctx.dbManager.getD g.db with
          | error e => simp
          | ok database =>
              rw [hdb] at hwf
              constructor
              · intro x hx
                simp only [List.mem_map] at hx
                rcases hx with ⟨r, hr, rfl⟩
                have hr2 := (List.mem_filter.mp hr).1
                have := (List.mem_filter.mp hr2).2
                simp only [Bool.and_eq_true] at this
                simpa using this.1
              · intro _
                apply codes_nodup_of_const_date _ d
                · exact List.Nodup.sublist
                    (List.Sublist.map _
                      ((List.filter_sublist _).trans (List.filter_sublist _))) hwf
                · intro r hr
                  have hr2 := (List.mem_filter.mp hr).1
                  have := (List.mem_filter.mp hr2).2
                  simp only [Bool.and_eq_true] at this
                  simpa using this.2

theorem changeRate_sound (days : Nat) (mn mx : Option ℚ) (date : Option String)
    (I : List String) (ctx : Ctx) (g : Globals) (out : List String)
    (hok : (ChangeRateCondition.filter days mn mx date I ctx g).1 = .ok out) :
    (∀ x ∈ out, x ∈ I) ∧ (I.Nodup → out.Nodup) := by
  unfold ChangeRateCondition.filter at hok
  by_cases hI : I.isEmpty
  · rw [if_pos hI] at hok
    simp only at hok
    injection hok with h
    subst h
    simp
  · simp only [hI, if_false, Bool.false_eq_true] at hok
    by_cases hb : (mn.isNone && mx.isNone) = true
    · rw [if_pos hb] at hok
      simp only at hok
      injection hok with h
      subst h
      exact ⟨fun x hx => hx, fun h => h⟩
    · rw [if_neg hb] at hok
      cases hfs : ctx.fetchService with
      | none => rw [hfs] at hok; simp at hok
      | some fs =>
          rw [hfs] at hok
          simp only at hok
          rcases hdr :
              (if pyTruthyStr date = true then (date, ([] : List Ev))
               else (fs.getLatestTradeDate,
                 [Ev.fetchCall "get_latest_trade_date"])).1 with _ | d
          · rw [hdr] at hok
            simp only at hok
            injection hok with h
            subst h
            simp
          · rw [hdr] at hok
            simp only at hok
            cases hds : g.dateSub d (days * 2) with
            | error e => rw [hds] at hok; simp at hok
            | ok start_date =>
                rw [hds] at hok
                simp only at hok
                injection hok with h
                subst h
                constructor
                · intro x hx
                  exact (List.mem_filter.mp hx).1
                · intro h
                  exact h.filter _

theorem macd_sound (signal period : String) (days : Nat) (I : List String)
    (ctx : Ctx) (g : Globals) (out : List String)
    (hok : (MACDCondition.filter signal period days I ctx g).1 = .ok out) :
    (∀ x ∈ out, x ∈ I) ∧ (I.Nodup → out.Nodup) := by
  unfold MACDCondition.filter at hok
  by_cases hI : I.isEmpty
  · rw [if_pos hI] at hok
    simp only at hok
    injection hok with h
    subst h
    simp
  · simp only [hI, if_false, Bool.false_eq_true] at hok
    cases hfs : ctx.fetchService with
    | none => rw [hfs] at hok; simp at hok
    | some fs =>
        rw [hfs] at hok
        simp only at hok
        injection hok with h
        subst h
        constructor
        · intro x hx
          exact (List.mem_filter.mp hx).1
        · intro h
          exact h.filter _

mutual

/-- Soundness of the whole condition tree: a successful filter draws its
output from the input, and keeps a duplicate-free input duplicate-free
(given the `stock_daily` key constraint). -/
theorem filterT_sound : ∀ c I ctx g out, DbWf (ctx.dbManager.getD g.db) →
    (filterT c I ctx g).1 = .ok out →
    (∀ x ∈ out, x ∈ I) ∧ (I.Nodup → out.Nodup) := by
  intro c I ctx g out hwf hok
  match c with
  | .codeList codes exclude =>
      simp only [filterT] at hok
      injection hok with h
      subst h
      exact codeList_sound codes exclude I
  | .market market =>
      simp only [filterT] at hok
      injection hok with h
      subst h
      exact market_sound market I ctx g
  | .marketValue mn mx useTotal =>
      simp only [filterT] at hok
      injection hok with h
      subst h
      exact marketValue_sound mn mx useTotal I ctx g
  | .price mn mx date =>
      simp only [filterT] at hok
      injection hok with h
      subst h
      exact price_sound mn mx date I ctx g hwf
  | .changeRate days mn mx date =>
      simp only [filterT] at hok
      exact changeRate_sound days mn mx date I ctx g out hok
  | .macd signal period days =>
      simp only [filterT] at hok
      exact macd_sound signal period days I ctx g out hok
  | .and cs =>
      cases cs with
      | nil =>
          simp only [filterT, List.isEmpty_nil, if_true] at hok
          injection hok with h
          subst h
          exact ⟨fun x hx => hx, fun h => h⟩
      | cons c1 rest =>
          by_cases hI : I.isEmpty
          · simp only [filterT, List.isEmpty_cons, if_false, hI, if_true,
              Bool.false_eq_true] at hok
            injection hok with h
            subst h
            simp
          · simp only [filterT, List.isEmpty_cons, if_false, hI,
              Bool.false_eq_true] at hok
            exact andLoop_sound (c1 :: rest) I ctx g out hwf hok
  | .or cs =>
      cases cs with
      | nil =>
          simp only [filterT, List.isEmpty_nil, if_true] at hok
          injection hok with h
          subst h
          exact ⟨fun x hx => hx, fun h => h⟩
      | cons c1 rest =>
          by_cases hI : I.isEmpty
          · simp only [filterT, List.isEmpty_cons, if_false, hI, if_true,
              Bool.false_eq_true] at hok
            injection hok with h
            subst h
            simp
          · simp only [filterT, List.isEmpty_cons, if_false, hI,
              Bool.false_eq_true] at hok
            have h := orLoop_sound (c1 :: rest) I [] ctx g out hwf hok
            refine ⟨fun x hx => ?_, fun _ => h.2 List.nodup_nil⟩
            rcases h.1 x hx with h' | h'
            · simp at h'
            · exact h'
  | .not cs =>
      cases cs with
      | nil =>
          simp only [filterT, List.isEmpty_nil, if_true] at hok
          injection hok with h
          subst h
          exact ⟨fun x hx => hx, fun h => h⟩
      | cons c1 rest =>
          by_cases hI : I.isEmpty
          · simp only [filterT, List.isEmpty_cons, if_false, hI, if_true,
              Bool.false_eq_true] at hok
            injection hok with h
            subst h
            simp
          · simp only [filterT, List.isEmpty_cons, if_false, hI,
              Bool.false_eq_true] at hok
            rcases horl : orLoop (c1 :: rest) I [] ctx g with ⟨res, tr⟩
            rw [horl] at hok
            cases res with
            | error e => simp at hok
            | ok matched =>
                simp only at hok
                injection hok with h
                subst h
                constructor
                · intro x hx
                  have := (List.mem_filter.mp hx).1
                  exact (mem_pyDedup I x).mp this
                · intro _
                  exact (nodup_pyDedup I).filter _

/-- Soundness of the `AndCombinator` loop relative to its running pool. -/
theorem andLoop_sound : ∀ cs acc ctx g out, DbWf (ctx.dbManager.getD g.db) →
    (andLoop cs acc ctx g).1 = .ok out →
    (∀ x ∈ out, x ∈ acc) ∧ (acc.Nodup → out.Nodup) := by
  intro cs acc ctx g out hwf hok
  match cs with
  | [] =>
      rw [andLoop] at hok
      simp only at hok
      injection hok with h
      subst h
      exact ⟨fun x hx => hx, fun h => h⟩
  | c :: rest =>
      rw [andLoop] at hok
      rcases hf : filterT c acc ctx g with ⟨res, tr⟩
      rw [hf] at hok
      cases res with
      | error e => simp at hok
      | ok r =>
          simp only at hok
          have hcs := filterT_sound c acc ctx g r hwf (by simp [hf])
          by_cases hr : r.isEmpty
          · simp only [hr, if_true] at hok
            injection hok with h
            subst h
            have : r = [] := by simpa [List.isEmpty_iff] using hr
            subst this
            simp
          · simp only [hr, if_false, Bool.false_eq_true] at hok
            have hrec := andLoop_sound rest r ctx g out hwf hok
            exact ⟨fun x hx => hcs.1 x (hrec.1 x hx), fun h => hrec.2 (hcs.2 h)⟩

/-- Soundness of the OR/NOT accumulation loop: every output element comes
from the accumulator or the input, and a duplicate-free accumulator stays
duplicate-free. -/
theorem orLoop_sound : ∀ cs I acc ctx g out, DbWf (ctx.dbManager.getD g.db) →
    (orLoop cs I acc ctx g).1 = .ok out →
    (∀ x ∈ out, x ∈ acc ∨ x ∈ I) ∧ (acc.Nodup → out.Nodup) := by
  intro cs I acc ctx g out hwf hok
  match cs with
  | [] =>
      rw [orLoop] at hok
      simp only at hok
      injection hok with h
      subst h
      exact ⟨fun x hx => Or.inl hx, fun h => h⟩
  | c :: rest =>
      rw [orLoop] at hok
      rcases hf : filterT c I ctx g with ⟨res, tr⟩
      rw [hf] at hok
      cases res with
      | error e => simp at hok
      | ok filtered =>
          simp only at hok
          have hcs := filterT_sound c I ctx g filtered hwf (by simp [hf])
          have hrec := orLoop_sound rest I (pySetUpdate acc filtered) ctx g out hwf hok
          constructor
          · intro x hx
            rcases hrec.1 x hx with h' | h'
            · rcases (mem_pySetUpdate acc filtered x).mp h' with h'' | h''
              · exact Or.inl h''
              · exact Or.inr (hcs.1 x h'')
            · exact Or.inr h'
          · intro h
            exact hrec.2 (nodup_pySetUpdate acc filtered h)

end

/-- C7 (amended): for every condition, leaf or combinator, a filter run
that returns normally draws its output from the input — no identifier is
fabricated — and a duplicate-free input yields a duplicate-free output
(`stock_daily` assumed key-unique on `(code, trade_date)` per the ingestion
SQL). Duplicate-freedom is only guaranteed for duplicate-free inputs: the
list-comprehension leaves preserve input duplicates. -/
theorem condition_subset_nodup (c : Cond) (I : List String) (ctx : Ctx)
    (g : Globals) (out : List String)
    (hwf : DbWf (ctx.dbManager.getD g.db))
    (hok : Cond.filter c I ctx g = .ok out) :
    (∀ x ∈ out, x ∈ I) ∧ (I.Nodup → out.Nodup) :=
  filterT_sound c I ctx g out hwf hok

/-- Witness for C7: the nested tree
`Conjunction([include {A,B}, Negation([include {B}])])` on `[A, B, C]`
returns `[A]`, a duplicate-free subset of the input. -/
theorem condition_subset_nodup_witness :
    (∀ x ∈ (["A"] : List String), x ∈ (["A", "B", "C"] : List String)) ∧
      ((["A", "B", "C"] : List String).Nodup → (["A"] : List String).Nodup) :=
  condition_subset_nodup
    (.and [Cond.codeList ["A", "B"] false, .not [Cond.codeList ["B"] false]])
    ["A", "B", "C"] ctxNone gTest ["A"] (by constructor) rfl

/-- C7 counterexample: with a duplicated input, include-mode
`CodeListCondition` returns the duplicate both times — the output is not
duplicate-free, refuting "no duplicates even when I itself contains
duplicates". -/
theorem code_list_duplicate_output :
    Cond.filter (.codeList ["000001"] false) ["000001", "000001"] ctxNone
        gTest = .ok ["000001", "000001"] ∧
      ¬(["000001", "000001"] : List String).Nodup := by
  constructor
  · rfl
  · decide

/-! ### Context-dictionary lemmas -/

theorem pyLookup_append (d e : PyDict) (k : String) :
    pyLookup (d ++ e) k =
      match pyLookup d k with
      | some v => some v
      | none => pyLookup e k := by
  induction d with
  | nil => simp [pyLookup]
  | cons kv d ih =>
      rcases kv with ⟨k', v⟩
      by_cases hk : k' = k <;> simp [pyLookup, hk, ih]

theorem pyLookup_setdefault_same (d : PyDict) (k : String) (v : CtxVal) :
    pyLookup (pySetdefault d k v) k = some ((pyLookup d k).getD v) := by
  unfold pySetdefault
  cases h : pyLookup d k with
  | some w => simp [h]
  | none => simp [pyLookup_append, h, pyLookup]

theorem pyLookup_setdefault_other (d : PyDict) (k : String) (v : CtxVal)
    (k' : String) (h : k ≠ k') :
    pyLookup (pySetdefault d k v) k' = pyLookup d k' := by
  unfold pySetdefault
  cases hd : pyLookup d k with
  | some w => rfl
  | none =>
      rw [pyLookup_append]
      cases hd' : pyLookup d k' with
      | some w => rfl
      | none => simp [pyLookup, h]

/-- C10: every `ScreeningService` entry point hands the condition tree the
caller's context dict after `_prepare_context` mutated it in place (the
returned dict is that caller-visible state, even when the filter raises);
after the call the dict holds `db_manager` and `fetch_service` bindings for
every slot the caller left unset, slots the caller did set keep the
caller's value, and every other key is untouched. -/
theorem prepare_context_mutation (svc : ScreeningService) (cond : Cond)
    (initial : Option (List String)) (d : PyDict) (g : Globals) :
    (screenStocks svc cond initial (some d) g).2.2 = prepareContext (some d) g ∧
    (countStocks svc cond initial (some d) g).2.2 = prepareContext (some d) g ∧
    (getStockCodes svc cond initial (some d) g).2.2 = prepareContext (some d) g ∧
    pyLookup (prepareContext (some d) g) "db_manager" =
      some ((pyLookup d "db_manager").getD (.dbm g.db)) ∧
    pyLookup (prepareContext (some d) g) "fetch_service" =
      some ((pyLookup d "fetch_service").getD (.fsv g.fetch)) ∧
    (∀ k, k ≠ "db_manager" → k ≠ "fetch_service" →
      pyLookup (prepareContext (some d) g) k = pyLookup d k) := by
  refine ⟨?_, ?_, ?_, ?_, ?_, ?_⟩
  · unfold screenStocks
    rcases hf : Cond.filter cond (getInitialCodes svc initial g).1
        (dictToCtx (prepareContext (some d) g)) g with e | codes <;> simp [hf]
  · unfold countStocks
    rcases hf : Cond.filter cond (getInitialCodes svc initial g).1
        (dictToCtx (prepareContext (some d) g)) g with e | codes <;> simp [hf]
  · unfold getStockCodes
    rcases hf : Cond.filter cond (getInitialCodes svc initial g).1
        (dictToCtx (prepareContext (some d) g)) g with e | codes <;> simp [hf]
  · unfold prepareContext
    rw [pyLookup_setdefault_other _ "fetch_service" _ "db_manager" (by decide)]
    simp [pyLookup_setdefault_same]
  · unfold prepareContext
    rw [pyLookup_setdefault_same]
    rw [pyLookup_setdefault_other _ "db_manager" _ "fetch_service" (by decide)]
    simp
  · intro k hk1 hk2
    unfold prepareContext
    rw [pyLookup_setdefault_other _ "fetch_service" _ k (fun h => hk2 h.symm)]
    rw [pyLookup_setdefault_other _ "db_manager" _ k (fun h => hk1 h.symm)]
    simp

/-- Witness for C10 at a concrete dict: a caller key other than the two
collaborator slots is left untouched by the entry points' context
preparation. -/
theorem prepare_context_mutation_witness :
    pyLookup (prepareContext (some [("user", CtxVal.other "x")]) gTest) "user" =
      pyLookup [("user", CtxVal.other "x")] "user" :=
  (prepare_context_mutation ⟨none⟩ (.codeList [] false) none
      [("user", CtxVal.other "x")] gTest).2.2.2.2.2 "user" (by decide) (by decide)

/-- C9 (amended): the three entry points perform the same filter
invocation (same prepared context, same resolved universe) and differ only
in materialization: `count_stocks` is exactly the length of
`get_stock_codes`, while `screen_stocks` hydrates each surviving code
through `stock_service.get_stock`, silently dropping codes whose lookup
returns no record. -/
theorem entry_points_share_filter (svc : ScreeningService) (cond : Cond)
    (initial : Option (List String)) (context : Option PyDict) (g : Globals) :
    (countStocks svc cond initial context g).1 =
        (getStockCodes svc cond initial context g).1.map List.length ∧
      (screenStocks svc cond initial context g).1 =
        (getStockCodes svc cond initial context g).1.map
          (fun codes => codes.filterMap g.getStock) := by
  unfold countStocks screenStocks getStockCodes
  rcases hf : Cond.filter cond (getInitialCodes svc initial g).1
      (dictToCtx (prepareContext context g)) g with e | codes <;>
    simp [hf, Except.map]

/-- C9 counterexample: a surviving identifier with no catalog record
(`get_stock` returns `None`) yields no `screen_stocks` display record,
so `screen_stocks` does not return one hydrated record per surviving
identifier. -/
theorem screen_drops_unhydrated :
    (getStockCodes ⟨none⟩ (.codeList ["000001"] false) (some ["000001"])
        none gTest).1 = .ok ["000001"] ∧
      (screenStocks ⟨none⟩ (.codeList ["000001"] false) (some ["000001"])
          none gTest).1 = .ok [] := by
  constructor <;> rfl

end StockScreening
